import Mathlib

/-!
Verification development for the wfmash sketch index (winSketch.hpp) and the
alignment orchestration pipeline (computeAlignments.hpp).

The C++ data structures and routines are shallowly embedded as executable Lean
definitions: vectors become lists, the unordered position map becomes an
association list with unique keys, machine integers become naturals (values in
the relevant routines never overflow 64 bits and are never negative), and
fallible or exiting code returns Except with the emitted exit code.
-/

set_option autoImplicit false

namespace WfMash

/-- Canonical k-mer hash, uint64 in the source. -/
abbrev Hash := Nat

/-- Dense sequence id, int32 in the source. -/
abbrev SeqNo := Nat

/-- Genomic offset.  Offsets handled by the indexing code are non-negative. -/
abbrev Offset := Nat

/-- The sentinel for freqThreshold: std::numeric_limits of uint64_t, max(). -/
def U64MAX : Nat := 2 ^ 64 - 1

/-- side enum of an interval point. -/
inductive Side where
  | OPEN : Side
  | CLOSE : Side
deriving DecidableEq, Repr

/-- skch::MinmerInfo: one minmer occupying window [wpos, wpos_end) of one
sequence.  strand is an int8 in the source; kept as Int. -/
structure MinmerInfo where
  hash : Hash
  wpos : Offset
  wpos_end : Offset
  seqId : SeqNo
  strand : Int
deriving DecidableEq, Repr

/-- skch::IntervalPoint: an OPEN or CLOSE marker at a position. -/
structure IntervalPoint where
  pos : Offset
  hash : Hash
  seqId : SeqNo
  side : Side
deriving DecidableEq, Repr

/-- Value type of the position lookup index: a vector of interval points. -/
abbrev PosList := List IntervalPoint

/-- minmerPosLookupIndex, embedded as an association list hash -> PosList.
Keys are unique by construction. -/
abbrev PosMap := List (Hash × PosList)

/-- Lookup in the position map; absent keys read as the empty vector
(matching operator-square-bracket default construction). -/
def lookupPos : PosMap → Hash → PosList
  | [], _ => []
  | (k, v) :: rest, h => if k = h then v else lookupPos rest h

/-- Store a value for a key: replace the first binding, or append a new one
(matching operator-square-bracket insertion). -/
def setPos : PosMap → Hash → PosList → PosMap
  | [], h, l => [(h, l)]
  | (k, v) :: rest, h, l => if k = h then (h, l) :: rest else (k, v) :: setPos rest h l

/-- The OPEN point pushed for a minmer. -/
def openPt (mi : MinmerInfo) : IntervalPoint :=
  { pos := mi.wpos, hash := mi.hash, seqId := mi.seqId, side := Side.OPEN }

/-- The CLOSE point pushed for a minmer. -/
def closePt (mi : MinmerInfo) : IntervalPoint :=
  { pos := mi.wpos_end, hash := mi.hash, seqId := mi.seqId, side := Side.CLOSE }

/-- The per-minmer update of one position list, translated from the body of
Sketch::buildHandleThreadOutput: if the list is empty, or its back has a
different hash, or its back's pos differs from the minmer's window start, a
fresh OPEN/CLOSE pair is appended; otherwise the back's pos is replaced by the
minmer's window end. -/
def updatePos (l : PosList) (mi : MinmerInfo) : PosList :=
  match l.getLast? with
  | none => [openPt mi, closePt mi]
  | some b =>
    if b.hash ≠ mi.hash ∨ b.pos ≠ mi.wpos then
      l ++ [openPt mi, closePt mi]
    else
      l.dropLast ++ [{ b with pos := mi.wpos_end }]

/-- Frequency-of-hash map (hashFreq member), as an association list. -/
abbrev FreqMap := List (Hash × Nat)

/-- hashFreq increment for one hash. -/
def bumpFreq : FreqMap → Hash → FreqMap
  | [], h => [(h, 1)]
  | (k, c) :: rest, h => if k = h then (k, c + 1) :: rest else (k, c) :: bumpFreq rest h

/-- The in-memory portion of skch::Sketch touched by the claims. -/
structure SketchState where
  hashFreq : FreqMap
  minmerPosLookupIndex : PosMap
  minmerIndex : List MinmerInfo
  freqThreshold : Nat
  frequentSeeds : List Hash
deriving DecidableEq, Repr

/-- A freshly constructed Sketch. -/
def initialSketch : SketchState :=
  { hashFreq := [], minmerPosLookupIndex := [], minmerIndex := [],
    freqThreshold := U64MAX, frequentSeeds := [] }

/-- Processing of one MinmerInfo inside buildHandleThreadOutput's loop. -/
def handleMinmer (st : SketchState) (mi : MinmerInfo) : SketchState :=
  { st with
    hashFreq := bumpFreq st.hashFreq mi.hash,
    minmerPosLookupIndex :=
      setPos st.minmerPosLookupIndex mi.hash
        (updatePos (lookupPos st.minmerPosLookupIndex mi.hash) mi) }

/-- Sketch::buildHandleThreadOutput: merge one contig's thread-local minmer
vector into the global index, then append it to minmerIndex. -/
def buildHandleThreadOutput (st : SketchState) (contig : List MinmerInfo) : SketchState :=
  let st' := contig.foldl handleMinmer st
  { st' with minmerIndex := st'.minmerIndex ++ contig }

/-- Accumulate all per-contig thread outputs, in order. -/
def accumulate (contigs : List (List MinmerInfo)) : SketchState :=
  contigs.foldl buildHandleThreadOutput initialSketch

/-- The sides of a position list. -/
def sidesOf (l : PosList) : List Side := l.map IntervalPoint.side

/-- Alternation starting with OPEN: OPEN, CLOSE, OPEN, CLOSE, ... -/
def altOC : List Side → Bool
  | [] => true
  | Side.OPEN :: Side.CLOSE :: rest => altOC rest
  | _ => false

/-- No two adjacent interval pairs on the same sequence are immediately
adjacent: scanning pairs, a pair's CLOSE never shares seq id and position with
the next pair's OPEN. -/
def noAdjSameSeq : PosList → Bool
  | _o :: c :: tail =>
    (match tail with
     | o2 :: _ => decide (¬(c.seqId = o2.seqId ∧ c.pos = o2.pos))
     | [] => true)
    && noAdjSameSeq tail
  | _ => true

/-- Strengthened adjacency invariant actually maintained by the code: the pos
of a pair's CLOSE never equals the pos of the next pair's OPEN at all
(the source does not compare seq ids). -/
def noAdjPos : PosList → Bool
  | _o :: c :: tail =>
    (match tail with
     | o2 :: _ => decide (c.pos ≠ o2.pos)
     | [] => true)
    && noAdjPos tail
  | _ => true

/-- The minmerFreqHistogram member built by Sketch::computeFreqHist: for each
position-list size occurring in the lookup index, the number of hashes with
that size.  A std::map is iterated in ascending key order, so the histogram is
the ascending list of (size, number of hashes). -/
def minmerFreqHistogram (m : PosMap) : List (Nat × Nat) :=
  let sizes := m.map (fun e => e.2.length)
  (sizes.dedup.insertionSort (· ≤ ·)).map (fun k => (k, sizes.count k))

/-- The descending scan of Sketch::computeFreqHist: starting from the highest
size, add each bucket to the running sum; while the sum is below the target
remember the bucket's size, on exact equality remember it and stop, and on
overshoot stop keeping the previously remembered size. -/
def thresholdLoop (target : Nat) : List (Nat × Nat) → Nat → Nat → Nat
  | [], _, acc => acc
  | (c, f) :: rest, sum, acc =>
    if sum + f < target then thresholdLoop target rest (sum + f) c
    else if sum + f = target then c
    else acc

/-- Sketch::computeFreqHist: compute the histogram and from it the frequency
threshold; when the lookup index is empty nothing is computed and the
threshold keeps its sentinel. -/
def computeFreqHist (m : PosMap) (pct : Nat) : Nat :=
  if m.isEmpty then U64MAX
  else
    let target := m.length * pct / 100
    thresholdLoop target (minmerFreqHistogram m).reverse 0 U64MAX

/-- Total number of hashes whose position-list size is at least c, read off
the histogram. -/
def cumCountAtLeast (hist : List (Nat × Nat)) (c : Nat) : Nat :=
  ((hist.filter (fun e => c ≤ e.1)).map (fun e => e.2)).sum

/-- The claim's reading of the threshold, stated from the spec's words: the
size at which the descending cumulative sum first reaches the target. -/
def specFirstReach (target : Nat) : List (Nat × Nat) → Nat → Nat
  | [], _ => U64MAX
  | (c, f) :: rest, sum =>
    if target ≤ sum + f then c else specFirstReach target rest (sum + f)

/-- The spec-side threshold of a built index, for comparison with
computeFreqHist. -/
def specFreqThreshold (m : PosMap) (pct : Nat) : Nat :=
  if m.isEmpty then U64MAX
  else
    let target := m.length * pct / 100
    specFirstReach target (minmerFreqHistogram m).reverse 0

/-- Sketch::computeFreqSeedSet: every hash whose position list has size at
least the frequency threshold becomes a frequent seed. -/
def computeFreqSeedSet (m : PosMap) (t : Nat) : List Hash :=
  (m.filter (fun e => t ≤ e.2.length)).map (fun e => e.1)

/-- Sketch::dropFreqSeedSet: remove from minmerIndex every entry whose hash is
a frequent seed. -/
def dropFreqSeedSet (minmers : List MinmerInfo) (fs : List Hash) : List MinmerInfo :=
  minmers.filter (fun mi => !(fs.contains mi.hash))

/-- The post-build frequency pipeline run by Sketch::initialize: histogram and
threshold, frequent-seed set, pruning of minmerIndex. -/
def afterFreqPipeline (st : SketchState) (pct : Nat) : SketchState :=
  let t := computeFreqHist st.minmerPosLookupIndex pct
  let fs := computeFreqSeedSet st.minmerPosLookupIndex t
  { st with freqThreshold := t, frequentSeeds := fs,
            minmerIndex := dropFreqSeedSet st.minmerIndex fs }

/-- A cleaner recursion equivalent to thresholdLoop: consume buckets while the
bucket fits in the remaining target, remembering the last consumed size. -/
def smallestLeq (t : Nat) : List (Nat × Nat) → Nat → Nat
  | [], acc => acc
  | (c, f) :: rest, acc => if f ≤ t then smallestLeq (t - f) rest c else acc

theorem smallestLeq_zero (l : List (Nat × Nat)) (acc : Nat)
    (hf : ∀ e ∈ l, 1 ≤ e.2) : smallestLeq 0 l acc = acc := by
  cases l with
  | nil => rfl
  | cons a rest =>
    obtain ⟨c, f⟩ := a
    have h1 : 1 ≤ f := hf (c, f) (by simp)
    simp only [smallestLeq]
    rw [if_neg (by omega)]

theorem thresholdLoop_eq_smallestLeq (t : Nat) (hist : List (Nat × Nat)) :
    ∀ (s acc : Nat), (∀ e ∈ hist, 1 ≤ e.2) → s ≤ t →
      thresholdLoop t hist s acc = smallestLeq (t - s) hist acc := by
  induction hist with
  | nil => intro s acc _ _; rfl
  | cons a rest ih =>
    intro s acc hf hs
    obtain ⟨c, f⟩ := a
    have hrest : ∀ e ∈ rest, 1 ≤ e.2 := fun e he => hf e (by simp [he])
    rcases Nat.lt_trichotomy (s + f) t with hlt | heq | hgt
    · simp only [thresholdLoop, smallestLeq]
      rw [if_pos hlt, if_pos (by omega : f ≤ t - s),
        ih (s + f) c hrest (by omega), Nat.sub_sub]
    · simp only [thresholdLoop, smallestLeq]
      rw [if_neg (by omega), if_pos (by omega : s + f = t), if_pos (by omega : f ≤ t - s)]
      have h0 : t - s - f = 0 := by omega
      rw [h0, smallestLeq_zero rest c hrest]
    · simp only [thresholdLoop, smallestLeq]
      rw [if_neg (by omega), if_neg (by omega), if_neg (by omega : ¬ f ≤ t - s)]

theorem cumCountAtLeast_cons (c f x : Nat) (rest : List (Nat × Nat)) :
    cumCountAtLeast ((c, f) :: rest) x =
      (if x ≤ c then f else 0) + cumCountAtLeast rest x := by
  by_cases h : x ≤ c <;> simp [cumCountAtLeast, h]

theorem cumCountAtLeast_zero_of_lt (rest : List (Nat × Nat)) (c : Nat)
    (h : ∀ e ∈ rest, e.1 < c) : cumCountAtLeast rest c = 0 := by
  have : rest.filter (fun e => c ≤ e.1) = [] := by
    apply List.filter_eq_nil_iff.mpr
    intro e he
    have := h e he
    simp only [decide_eq_true_eq]
    omega
  simp [cumCountAtLeast, this]

theorem smallestLeq_char (hist : List (Nat × Nat)) :
    ∀ (t acc : Nat), (hist.map Prod.fst).Pairwise (fun a b => b < a) →
    (smallestLeq t hist acc = acc ∧
      ∀ c f, (c, f) ∈ hist → t < cumCountAtLeast hist c) ∨
    ((∃ f, (smallestLeq t hist acc, f) ∈ hist) ∧
      cumCountAtLeast hist (smallestLeq t hist acc) ≤ t ∧
      ∀ c f, (c, f) ∈ hist → c < smallestLeq t hist acc → t < cumCountAtLeast hist c) := by
  induction hist with
  | nil => intro t acc _; left; exact ⟨rfl, by simp⟩
  | cons a rest ih =>
    intro t acc hsort
    obtain ⟨c, f⟩ := a
    have hmax : ∀ k ∈ rest.map Prod.fst, k < c := by
      intro k hk
      exact (List.pairwise_cons.mp hsort).1 k hk
    have hsort' : (rest.map Prod.fst).Pairwise (fun a b => b < a) :=
      (List.pairwise_cons.mp hsort).2
    have hzero : cumCountAtLeast rest c = 0 :=
      cumCountAtLeast_zero_of_lt rest c
        (fun e he => hmax e.1 (List.mem_map_of_mem Prod.fst he))
    by_cases hft : f ≤ t
    · have heq : smallestLeq t ((c, f) :: rest) acc = smallestLeq (t - f) rest c := by
        simp only [smallestLeq]; rw [if_pos hft]
      rcases ih (t - f) c hsort' with ⟨hr, hall⟩ | ⟨⟨f', hf'⟩, hle, hmin⟩
      · right
        rw [heq, hr]
        refine ⟨⟨f, by simp⟩, ?_, ?_⟩
        · rw [cumCountAtLeast_cons, if_pos (le_refl c), hzero]
          omega
        · intro c'' f'' hmem hlt
          rcases List.mem_cons.mp hmem with hhd | htl
          · exact absurd hlt (by simp at hhd; omega)
          · have := hall c'' f'' htl
            rw [cumCountAtLeast_cons, if_pos (le_of_lt hlt)]
            omega
      · right
        have hrc : smallestLeq (t - f) rest c < c :=
          hmax _ (List.mem_map_of_mem Prod.fst hf')
        rw [heq]
        refine ⟨⟨f', List.mem_cons_of_mem _ hf'⟩, ?_, ?_⟩
        · rw [cumCountAtLeast_cons, if_pos (le_of_lt hrc)]
          omega
        · intro c'' f'' hmem hlt
          rcases List.mem_cons.mp hmem with hhd | htl
          · have : c'' = c := by simp at hhd; omega
            omega
          · have := hmin c'' f'' htl hlt
            have hcc : c'' < c := hmax _ (List.mem_map_of_mem Prod.fst htl)
            rw [cumCountAtLeast_cons, if_pos (le_of_lt hcc)]
            omega
    · left
      constructor
      · simp only [smallestLeq]; rw [if_neg hft]
      · intro c'' f'' hmem
        have hcc : c'' ≤ c := by
          rcases List.mem_cons.mp hmem with hhd | htl
          · simp at hhd; omega
          · exact le_of_lt (hmax _ (List.mem_map_of_mem Prod.fst htl))
        rw [cumCountAtLeast_cons, if_pos hcc]
        omega

theorem hist_map_fst (m : PosMap) :
    (minmerFreqHistogram m).map Prod.fst =
      (m.map (fun e => e.2.length)).dedup.insertionSort (· ≤ ·) := by
  simp only [minmerFreqHistogram, List.map_map]
  exact List.map_id _

theorem hist_keys_sorted (m : PosMap) :
    ((minmerFreqHistogram m).map Prod.fst).Pairwise (· < ·) := by
  rw [hist_map_fst]
  have hsorted :
      ((m.map (fun e => e.2.length)).dedup.insertionSort (· ≤ ·)).Pairwise (· ≤ ·) :=
    List.sorted_insertionSort _ _
  have hnd : ((m.map (fun e => e.2.length)).dedup.insertionSort (· ≤ ·)).Nodup :=
    (List.perm_insertionSort _ _).symm.nodup (List.nodup_dedup _)
  exact (hsorted.and hnd).imp (fun h => lt_of_le_of_ne h.1 h.2)

theorem hist_freqs_pos (m : PosMap) : ∀ e ∈ minmerFreqHistogram m, 1 ≤ e.2 := by
  intro e he
  simp only [minmerFreqHistogram, List.mem_map] at he
  obtain ⟨k, hk, rfl⟩ := he
  have hk2 : k ∈ (m.map (fun e => e.2.length)).dedup :=
    (List.perm_insertionSort _ _).mem_iff.mp hk
  have hk3 : k ∈ m.map (fun e => e.2.length) := List.mem_dedup.mp hk2
  have := List.count_pos_iff.mpr hk3
  omega

theorem cumCountAtLeast_reverse (l : List (Nat × Nat)) (c : Nat) :
    cumCountAtLeast l.reverse c = cumCountAtLeast l c := by
  simp only [cumCountAtLeast, List.filter_reverse, List.map_reverse, List.sum_reverse]

/-- Claim C1, amended: after index construction, freq_threshold is the
smallest histogram size whose at-or-above cumulative hash count is at most
total_unique × pct / 100 — not the size at which the descending sum first
reaches the target.  When every size's cumulative count exceeds the target
(in particular when the largest bucket alone overshoots it), the threshold
keeps its infinite sentinel. -/
theorem c1_freq_threshold_amended (m : PosMap) (pct : Nat) :
    (computeFreqHist m pct = U64MAX ∧
      ∀ c f, (c, f) ∈ minmerFreqHistogram m →
        m.length * pct / 100 < cumCountAtLeast (minmerFreqHistogram m) c) ∨
    ((∃ f, (computeFreqHist m pct, f) ∈ minmerFreqHistogram m) ∧
      cumCountAtLeast (minmerFreqHistogram m) (computeFreqHist m pct) ≤
        m.length * pct / 100 ∧
      ∀ c f, (c, f) ∈ minmerFreqHistogram m → c < computeFreqHist m pct →
        m.length * pct / 100 < cumCountAtLeast (minmerFreqHistogram m) c) := by
  by_cases hm : m.isEmpty = true
  · left
    have hm' : m = [] := by cases m <;> simp_all
    subst hm'
    refine ⟨by simp [computeFreqHist], ?_⟩
    intro c f hcf
    simp [minmerFreqHistogram] at hcf
  · have hfp : ∀ e ∈ (minmerFreqHistogram m).reverse, 1 ≤ e.2 := by
      intro e he
      exact hist_freqs_pos m e (List.mem_reverse.mp he)
    have hexp : computeFreqHist m pct =
        smallestLeq (m.length * pct / 100) (minmerFreqHistogram m).reverse U64MAX := by
      simp only [computeFreqHist, if_neg hm]
      rw [thresholdLoop_eq_smallestLeq _ _ 0 U64MAX hfp (Nat.zero_le _), Nat.sub_zero]
    have hsort : ((minmerFreqHistogram m).reverse.map Prod.fst).Pairwise
        (fun a b => b < a) := by
      rw [List.map_reverse]
      exact List.pairwise_reverse.mpr (hist_keys_sorted m)
    rcases smallestLeq_char (minmerFreqHistogram m).reverse
        (m.length * pct / 100) U64MAX hsort with ⟨hr, hall⟩ | ⟨⟨f, hf⟩, hle, hmin⟩
    · left
      refine ⟨by rw [hexp, hr], ?_⟩
      intro c f hcf
      have := hall c f (List.mem_reverse.mpr hcf)
      rwa [cumCountAtLeast_reverse] at this
    · right
      rw [hexp]
      refine ⟨⟨f, List.mem_reverse.mp hf⟩, ?_, ?_⟩
      · rwa [cumCountAtLeast_reverse] at hle
      · intro c f' hcf hlt
        have := hmin c f' (List.mem_reverse.mpr hcf) hlt
        rwa [cumCountAtLeast_reverse] at this

/-- Shorthand for a concrete MinmerInfo on sequence 0, forward strand. -/
def cmi (h s e : Nat) : MinmerInfo :=
  { hash := h, wpos := s, wpos_end := e, seqId := 0, strand := 1 }

/-- A concrete contig output: hash 1 in three detached windows, hashes 2 and 3
in two detached windows each. -/
def c1Contig : List MinmerInfo :=
  [cmi 1 0 5, cmi 1 10 15, cmi 1 20 25, cmi 2 2 7, cmi 2 12 17, cmi 3 4 9, cmi 3 14 19]

/-- The position lookup index built from c1Contig: sizes 6, 4, 4. -/
def c1Index : PosMap := (accumulate [c1Contig]).minmerPosLookupIndex

/-- Claim C1, counterexample: on the index built from c1Contig with a 67
percent threshold the target is 2 hashes; the top bucket (one hash of size 6)
keeps the sum below the target, the next bucket overshoots, and the code keeps
threshold 6 — while the spec's freshly-stated rule (the size at which the
descending sum first reaches the target) gives 4.  Moreover the threshold is
finite here although the cumulative hash count at it (1) is below the target,
refuting the claimed iff as well. -/
theorem c1_counterexample :
    computeFreqHist c1Index 67 ≠ specFreqThreshold c1Index 67 ∧
    ¬(computeFreqHist c1Index 67 ≠ U64MAX ↔
       c1Index.length * 67 / 100 ≤
         cumCountAtLeast (minmerFreqHistogram c1Index) (computeFreqHist c1Index 67)) := by
  decide

/-- Witness for c1_freq_threshold_amended at the concrete index c1Index. -/
theorem c1_freq_threshold_amended_witness :
    (computeFreqHist c1Index 67 = U64MAX ∧
      ∀ c f, (c, f) ∈ minmerFreqHistogram c1Index →
        c1Index.length * 67 / 100 < cumCountAtLeast (minmerFreqHistogram c1Index) c) ∨
    ((∃ f, (computeFreqHist c1Index 67, f) ∈ minmerFreqHistogram c1Index) ∧
      cumCountAtLeast (minmerFreqHistogram c1Index) (computeFreqHist c1Index 67) ≤
        c1Index.length * 67 / 100 ∧
      ∀ c f, (c, f) ∈ minmerFreqHistogram c1Index → c < computeFreqHist c1Index 67 →
        c1Index.length * 67 / 100 < cumCountAtLeast (minmerFreqHistogram c1Index) c) :=
  c1_freq_threshold_amended c1Index 67

theorem lookupPos_eq_of_mem (m : PosMap) (h : Hash) (l : PosList)
    (hnd : (m.map Prod.fst).Nodup) (hm : (h, l) ∈ m) : lookupPos m h = l := by
  induction m with
  | nil => cases hm
  | cons a rest ih =>
    obtain ⟨k, v⟩ := a
    rw [List.map_cons, List.nodup_cons] at hnd
    rcases List.mem_cons.mp hm with hhd | htl
    · rw [Prod.mk.injEq] at hhd
      obtain ⟨h1, h2⟩ := hhd
      simp only [lookupPos]
      rw [if_pos h1.symm]
      exact h2.symm
    · have hmem : h ∈ rest.map Prod.fst := List.mem_map_of_mem Prod.fst htl
      have hk : k ≠ h := by
        intro hkh
        exact hnd.1 (hkh ▸ hmem)
      simp only [lookupPos]
      rw [if_neg hk]
      exact ih hnd.2 htl

/-- Claim C2, amended: after pruning no remaining MinmerInfo has a frequent
hash, and every frequent hash H satisfies |positions[H]| ≥ freq_threshold —
the code compares the raw interval-point count against the threshold, not the
number of interval pairs |positions[H]| / 2. -/
theorem c2_pruning_amended (m : PosMap) (t : Nat) (minmers : List MinmerInfo)
    (hnd : (m.map Prod.fst).Nodup) :
    (∀ mi ∈ dropFreqSeedSet minmers (computeFreqSeedSet m t),
        mi.hash ∉ computeFreqSeedSet m t) ∧
    (∀ h ∈ computeFreqSeedSet m t, t ≤ (lookupPos m h).length) := by
  constructor
  · intro mi hmi
    have := (List.mem_filter.mp hmi).2
    simp only [Bool.not_eq_true', List.contains, List.elem_eq_mem,
      decide_eq_false_iff_not] at this
    exact this
  · intro h hh
    simp only [computeFreqSeedSet, List.mem_map, List.mem_filter,
      decide_eq_true_eq] at hh
    obtain ⟨⟨k, l⟩, ⟨hmem, hlen⟩, rfl⟩ := hh
    rwa [lookupPos_eq_of_mem m k l hnd hmem]

/-- A concrete contig where hash 1 has three detached windows (size 6), hash 2
two (size 4) and hash 3 one (size 2); with a 34 percent threshold the target
is one hash, the top bucket alone reaches it exactly, and freq_threshold
becomes 6. -/
def c2Contig : List MinmerInfo :=
  [cmi 1 0 5, cmi 1 10 15, cmi 1 20 25, cmi 2 2 7, cmi 2 12 17, cmi 3 4 9]

/-- The position lookup index built from c2Contig. -/
def c2Index : PosMap := (accumulate [c2Contig]).minmerPosLookupIndex

/-- Claim C2, counterexample: with freq_threshold 6, hash 1 is put into
frequent_seeds (its interval-point list has size 6 ≥ 6), but
|positions[1]| / 2 = 3 < 6, refuting the claimed bound
|positions[H]| / 2 ≥ freq_threshold. -/
theorem c2_counterexample :
    1 ∈ computeFreqSeedSet c2Index (computeFreqHist c2Index 34) ∧
    ¬(computeFreqHist c2Index 34 ≤ (lookupPos c2Index 1).length / 2) := by
  decide

/-- Witness for c2_pruning_amended at the concrete index c2Index. -/
theorem c2_pruning_amended_witness :
    ((c2Index.map Prod.fst).Nodup) ∧
    ((∀ mi ∈ dropFreqSeedSet c2Contig (computeFreqSeedSet c2Index 6),
        mi.hash ∉ computeFreqSeedSet c2Index 6) ∧
     (∀ h ∈ computeFreqSeedSet c2Index 6, 6 ≤ (lookupPos c2Index h).length)) :=
  ⟨by decide, c2_pruning_amended c2Index 6 c2Contig (by decide)⟩

theorem altOC_append (s : List Side) (h : altOC s = true) :
    altOC (s ++ [Side.OPEN, Side.CLOSE]) = true := by
  induction s using altOC.induct with
  | case1 => simp [altOC]
  | case2 rest ih => simpa [altOC] using ih (by simpa [altOC] using h)
  | case3 => simp_all [altOC]

theorem altOC_even (s : List Side) (h : altOC s = true) : s.length % 2 = 0 := by
  induction s using altOC.induct with
  | case1 => rfl
  | case2 rest ih =>
    have := ih (by simpa [altOC] using h)
    simp only [List.length_cons]
    omega
  | case3 => simp_all [altOC]

theorem noAdjPos_append (l : PosList) (o c : IntervalPoint)
    (hev : l.length % 2 = 0)
    (hlast : ∀ b, l.getLast? = some b → b.pos ≠ o.pos)
    (h : noAdjPos l = true) : noAdjPos (l ++ [o, c]) = true := by
  induction l using noAdjPos.induct with
  | case1 x y tail ih =>
    cases tail with
    | nil =>
      have hy : y.pos ≠ o.pos := hlast y (by simp)
      simp [noAdjPos, hy]
    | cons t ts =>
      simp only [noAdjPos, List.cons_append, Bool.and_eq_true] at h ⊢
      refine ⟨h.1, ?_⟩
      have hlast' : ∀ b, (t :: ts).getLast? = some b → b.pos ≠ o.pos := by
        intro b hb
        apply hlast
        rw [List.getLast?_cons_cons, List.getLast?_cons_cons]
        exact hb
      exact ih (by simp at hev ⊢; omega) hlast' h.2
  | case2 l hne =>
    match l, hne with
    | [], _ => simp [noAdjPos]
    | [x], _ => simp at hev
    | x :: y :: t, hne => exact absurd rfl (hne x y t)

theorem noAdjPos_snoc_eq (l : PosList) (o c : IntervalPoint)
    (hev : l.length % 2 = 0) :
    noAdjPos (l ++ [o, c]) =
      ((match l.getLast? with
        | some b => decide (b.pos ≠ o.pos)
        | none => true) && noAdjPos l) := by
  induction l using noAdjPos.induct with
  | case1 x y tail ih =>
    cases tail with
    | nil => simp [noAdjPos]
    | cons t ts =>
      have hev' : (t :: ts).length % 2 = 0 := by simp at hev ⊢; omega
      have := ih hev'
      simp only [noAdjPos, List.append_eq, List.cons_append,
        List.getLast?_cons_cons] at this ⊢
      rw [this]
      cases hc : decide (¬y.pos = t.pos) <;> simp [hc]
  | case2 l hne =>
    match l, hne with
    | [], _ => simp [noAdjPos]
    | [x], _ => simp at hev
    | x :: y :: t, hne => exact absurd rfl (hne x y t)

theorem noAdjSameSeq_of_noAdjPos (l : PosList) (h : noAdjPos l = true) :
    noAdjSameSeq l = true := by
  induction l using noAdjSameSeq.induct with
  | case1 x y tail ih =>
    cases tail with
    | nil => simp [noAdjSameSeq]
    | cons t ts =>
      simp only [noAdjPos, Bool.and_eq_true, decide_eq_true_eq] at h
      simp only [noAdjSameSeq, Bool.and_eq_true, decide_eq_true_eq]
      exact ⟨fun hc => h.1 hc.2, ih h.2⟩
  | case2 l hne =>
    match l, hne with
    | [], _ => simp [noAdjSameSeq]
    | [x], _ => simp [noAdjSameSeq]
    | x :: y :: t, hne => exact absurd rfl (hne x y t)

/-- Well-formedness of one position-map entry: all points carry the entry's
hash, the sides alternate OPEN/CLOSE, and adjacent pairs never touch. -/
def entryInv (h : Hash) (l : PosList) : Prop :=
  (∀ p ∈ l, p.hash = h) ∧ altOC (sidesOf l) = true ∧ noAdjPos l = true

theorem entryInv_nil (h : Hash) : entryInv h [] :=
  ⟨by simp, rfl, rfl⟩

theorem entryInv_updatePos (h : Hash) (l : PosList) (mi : MinmerInfo)
    (hmi : mi.hash = h) (hinv : entryInv h l) : entryInv h (updatePos l mi) := by
  obtain ⟨hh, halt, hadj⟩ := hinv
  have hev : l.length % 2 = 0 := by
    have := altOC_even (sidesOf l) halt
    simpa [sidesOf] using this
  cases hl : l.getLast? with
  | none =>
    have hnil : l = [] := List.getLast?_eq_none_iff.mp hl
    subst hnil
    unfold updatePos
    refine ⟨?_, rfl, rfl⟩
    intro p hp
    cases hp with
    | head => simp [openPt, hmi]
    | tail _ hp2 =>
      cases hp2 with
      | head => simp [closePt, hmi]
      | tail _ hp3 => cases hp3
  | some b =>
    have hbl : b ∈ l := List.mem_of_getLast?_eq_some hl
    have hbh : b.hash = h := hh b hbl
    obtain ⟨l1, hdec⟩ := List.getLast?_eq_some_iff.mp hl
    by_cases hg : b.hash ≠ mi.hash ∨ b.pos ≠ mi.wpos
    · have hres : updatePos l mi = l ++ [openPt mi, closePt mi] := by
        unfold updatePos
        rw [hl]
        simp only [if_pos hg]
      rw [hres]
      refine ⟨?_, ?_, ?_⟩
      · intro p hp
        rcases List.mem_append.mp hp with h1 | h2
        · exact hh p h1
        · simp only [List.mem_cons, List.not_mem_nil, or_false] at h2
          rcases h2 with h3 | h4
          · simp [h3, openPt, hmi]
          · simp [h4, closePt, hmi]
      · have : sidesOf (l ++ [openPt mi, closePt mi]) =
            sidesOf l ++ [Side.OPEN, Side.CLOSE] := by
          simp [sidesOf, openPt, closePt]
        rw [this]
        exact altOC_append _ halt
      · have hbo : b.pos ≠ (openPt mi).pos := by
          rcases hg with h1 | h2
          · exact absurd (hbh.trans hmi.symm) h1
          · simpa [openPt] using h2
        apply noAdjPos_append l _ _ hev _ hadj
        intro b2 hb2
        rw [hl] at hb2
        cases hb2
        exact hbo
    · push_neg at hg
      have hres : updatePos l mi = l.dropLast ++ [{ b with pos := mi.wpos_end }] := by
        unfold updatePos
        rw [hl]
        simp only [if_neg (by push_neg; exact hg : ¬(b.hash ≠ mi.hash ∨ b.pos ≠ mi.wpos))]
      have hl1 : l1 ≠ [] := by
        intro hc
        rw [hdec, hc] at hev
        simp at hev
      obtain ⟨o0, hlast1⟩ : ∃ o0, l1.getLast? = some o0 := by
        cases hq : l1.getLast? with
        | none => exact absurd (List.getLast?_eq_none_iff.mp hq) hl1
        | some x => exact ⟨x, rfl⟩
      obtain ⟨l2, hdec2⟩ := List.getLast?_eq_some_iff.mp hlast1
      have hfull : l = l2 ++ [o0, b] := by
        rw [hdec, hdec2, List.append_assoc]
        rfl
      have hdrop : l.dropLast = l2 ++ [o0] := by
        rw [hdec, hdec2, List.dropLast_concat]
      have hev2 : l2.length % 2 = 0 := by
        rw [hfull] at hev
        simp at hev
        omega
      rw [hres, hdrop]
      have hnew : l2 ++ [o0] ++ [{ b with pos := mi.wpos_end }] =
          l2 ++ [o0, { b with pos := mi.wpos_end }] := by
        rw [List.append_assoc]
        rfl
      rw [hnew]
      refine ⟨?_, ?_, ?_⟩
      · intro p hp
        rcases List.mem_append.mp hp with h1 | h2
        · exact hh p (by rw [hfull]; exact List.mem_append.mpr (Or.inl h1))
        · simp only [List.mem_cons, List.not_mem_nil, or_false] at h2
          rcases h2 with h3 | h4
          · subst h3
            exact hh p (by rw [hfull]; simp)
          · subst h4
            exact hbh
      · have hs1 : sidesOf (l2 ++ [o0, { b with pos := mi.wpos_end }]) =
            sidesOf l2 ++ [o0.side, b.side] := by
          simp [sidesOf]
        have hs2 : sidesOf l = sidesOf l2 ++ [o0.side, b.side] := by
          rw [hfull]
          simp [sidesOf]
        rw [hs1, ← hs2]
        exact halt
      · have e1 : noAdjPos (l2 ++ [o0, { b with pos := mi.wpos_end }]) =
            ((match l2.getLast? with
              | some x => decide (x.pos ≠ o0.pos)
              | none => true) && noAdjPos l2) := noAdjPos_snoc_eq l2 _ _ hev2
        have e2 : noAdjPos (l2 ++ [o0, b]) =
            ((match l2.getLast? with
              | some x => decide (x.pos ≠ o0.pos)
              | none => true) && noAdjPos l2) := noAdjPos_snoc_eq l2 _ _ hev2
        rw [e1, ← e2, ← hfull]
        exact hadj

/-- Well-formedness of the whole position map. -/
def posMapInv (m : PosMap) : Prop :=
  (m.map Prod.fst).Nodup ∧ ∀ e ∈ m, entryInv e.1 e.2

theorem lookupPos_entryInv (m : PosMap) (h : Hash) :
    posMapInv m → entryInv h (lookupPos m h) := by
  induction m with
  | nil => intro _; exact entryInv_nil h
  | cons a rest ih =>
    intro hinv
    obtain ⟨k, v⟩ := a
    obtain ⟨hnd, hent⟩ := hinv
    simp only [lookupPos]
    by_cases hk : k = h
    · rw [if_pos hk]
      exact hk ▸ hent (k, v) (by simp)
    · rw [if_neg hk]
      apply ih
      refine ⟨?_, ?_⟩
      · rw [List.map_cons, List.nodup_cons] at hnd
        exact hnd.2
      · intro e he
        exact hent e (List.mem_cons_of_mem _ he)

theorem mem_setPos (m : PosMap) (h : Hash) (l : PosList) (e : Hash × PosList) :
    e ∈ setPos m h l → e = (h, l) ∨ e ∈ m := by
  induction m with
  | nil =>
    intro he
    simp only [setPos, List.mem_singleton] at he
    exact Or.inl he
  | cons a rest ih =>
    obtain ⟨k, v⟩ := a
    simp only [setPos]
    by_cases hk : k = h
    · rw [if_pos hk]
      intro he
      rcases List.mem_cons.mp he with h1 | h2
      · exact Or.inl h1
      · exact Or.inr (List.mem_cons_of_mem _ h2)
    · rw [if_neg hk]
      intro he
      rcases List.mem_cons.mp he with h1 | h2
      · exact Or.inr (h1 ▸ List.mem_cons_self _ _)
      · rcases ih h2 with h3 | h4
        · exact Or.inl h3
        · exact Or.inr (List.mem_cons_of_mem _ h4)

theorem keys_setPos (m : PosMap) (h : Hash) (l : PosList) :
    (setPos m h l).map Prod.fst =
      if h ∈ m.map Prod.fst then m.map Prod.fst else m.map Prod.fst ++ [h] := by
  induction m with
  | nil => simp [setPos]
  | cons a rest ih =>
    obtain ⟨k, v⟩ := a
    simp only [setPos]
    by_cases hk : k = h
    · subst hk
      simp
    · rw [if_neg hk]
      simp only [List.map_cons, List.mem_cons]
      rw [ih]
      by_cases hm : h ∈ rest.map Prod.fst
      · rw [if_pos hm, if_pos (Or.inr hm)]
      · rw [if_neg hm, if_neg ?_]
        · simp
        · intro hc
          rcases hc with h1 | h2
          · exact hk h1.symm
          · exact hm h2

theorem nodup_setPos (m : PosMap) (h : Hash) (l : PosList)
    (hnd : (m.map Prod.fst).Nodup) : ((setPos m h l).map Prod.fst).Nodup := by
  rw [keys_setPos]
  by_cases hm : h ∈ m.map Prod.fst
  · rw [if_pos hm]
    exact hnd
  · rw [if_neg hm]
    refine List.Nodup.append hnd (List.nodup_singleton h) ?_
    intro x hx hx2
    rw [List.mem_singleton] at hx2
    exact hm (hx2 ▸ hx)

theorem posMapInv_handleMinmer (st : SketchState) (mi : MinmerInfo)
    (hinv : posMapInv st.minmerPosLookupIndex) :
    posMapInv (handleMinmer st mi).minmerPosLookupIndex := by
  obtain ⟨hnd, hent⟩ := hinv
  constructor
  · exact nodup_setPos _ _ _ hnd
  · intro e he
    rcases mem_setPos _ _ _ e he with h1 | h2
    · rw [h1]
      exact entryInv_updatePos mi.hash _ mi rfl (lookupPos_entryInv _ _ ⟨hnd, hent⟩)
    · exact hent e h2

theorem posMapInv_foldl (contig : List MinmerInfo) :
    ∀ st : SketchState, posMapInv st.minmerPosLookupIndex →
      posMapInv ((contig.foldl handleMinmer st).minmerPosLookupIndex) := by
  induction contig with
  | nil => intro st h; exact h
  | cons mi rest ih =>
    intro st h
    exact ih _ (posMapInv_handleMinmer st mi h)

theorem posMapInv_buildHandleThreadOutput (st : SketchState) (contig : List MinmerInfo)
    (hinv : posMapInv st.minmerPosLookupIndex) :
    posMapInv (buildHandleThreadOutput st contig).minmerPosLookupIndex := by
  simp only [buildHandleThreadOutput]
  exact posMapInv_foldl contig st hinv

theorem posMapInv_accumulate_from (contigs : List (List MinmerInfo)) :
    ∀ st : SketchState, posMapInv st.minmerPosLookupIndex →
      posMapInv ((contigs.foldl buildHandleThreadOutput st).minmerPosLookupIndex) := by
  induction contigs with
  | nil => intro st h; exact h
  | cons c rest ih =>
    intro st h
    exact ih _ (posMapInv_buildHandleThreadOutput st c h)

theorem posMapInv_accumulate (contigs : List (List MinmerInfo)) :
    posMapInv (accumulate contigs).minmerPosLookupIndex :=
  posMapInv_accumulate_from contigs initialSketch ⟨List.nodup_nil, by simp [initialSketch]⟩

/-- Claim C9 (confirmed): for every hash, the interval-point list of the
position index built by accumulation alternates OPEN, CLOSE, OPEN, CLOSE, ...
and therefore has even length. -/
theorem c9_interval_parity (contigs : List (List MinmerInfo)) (h : Hash) :
    altOC (sidesOf (lookupPos (accumulate contigs).minmerPosLookupIndex h)) = true ∧
    (lookupPos (accumulate contigs).minmerPosLookupIndex h).length % 2 = 0 := by
  have hinv := lookupPos_entryInv _ h (posMapInv_accumulate contigs)
  obtain ⟨_, halt, _⟩ := hinv
  refine ⟨halt, ?_⟩
  have := altOC_even _ halt
  simpa [sidesOf] using this

/-- Claim C4 (confirmed): (1) when a minmer arrives whose hash equals the
hash of the last CLOSE stored for it, on the same sequence, with that CLOSE
positioned exactly at the minmer's window start, buildHandleThreadOutput
replaces the CLOSE's position with the window end in place instead of
appending a new OPEN/CLOSE pair; (2) consequently, after construction no two
adjacent interval pairs of any hash on the same sequence touch (the previous
CLOSE position never equals the next OPEN position). -/
theorem c4_run_merge :
    (∀ (l : PosList) (mi : MinmerInfo) (b : IntervalPoint),
        l.getLast? = some b → b.side = Side.CLOSE → b.hash = mi.hash →
        b.seqId = mi.seqId → b.pos = mi.wpos →
        updatePos l mi = l.dropLast ++ [{ b with pos := mi.wpos_end }]) ∧
    (∀ (contigs : List (List MinmerInfo)) (h : Hash),
        noAdjSameSeq (lookupPos (accumulate contigs).minmerPosLookupIndex h) = true) := by
  constructor
  · intro l mi b hl _ hh hs hp
    have hstep : updatePos l mi =
        if b.hash ≠ mi.hash ∨ b.pos ≠ mi.wpos then l ++ [openPt mi, closePt mi]
        else l.dropLast ++ [{ b with pos := mi.wpos_end }] := by
      unfold updatePos
      rw [hl]
    rw [hstep, if_neg]
    push_neg
    exact ⟨hh, hp⟩
  · intro contigs h
    have hinv := lookupPos_entryInv _ h (posMapInv_accumulate contigs)
    obtain ⟨_, _, hadj⟩ := hinv
    exact noAdjSameSeq_of_noAdjPos _ hadj

/-- Witness for c4_run_merge: the in-place extension on a concrete list and
the adjacency invariant on the concrete index c1Index. -/
theorem c4_run_merge_witness :
    updatePos [cmi 5 0 9 |> openPt, cmi 5 0 9 |> closePt] (cmi 5 9 14) =
      [cmi 5 0 9 |> openPt, { (cmi 5 0 9 |> closePt) with pos := 14 }] ∧
    noAdjSameSeq (lookupPos (accumulate [c1Contig]).minmerPosLookupIndex 1) = true := by
  constructor
  · exact c4_run_merge.1 _ (cmi 5 9 14) _ rfl rfl rfl rfl rfl
  · exact c4_run_merge.2 [c1Contig] 1

/-- The parameter block persisted by writeParameters: segLength, sketchSize,
kmerSize, each a u64. -/
structure SketchParams where
  segLength : Nat
  sketchSize : Nat
  kmerSize : Nat
deriving DecidableEq, Repr

/-- One fixed-width field of the binary index stream.  Fields are written and
read back at fixed widths, so the stream is faithfully a list of typed
records. -/
inductive BinTok where
  | w64 (n : Nat) : BinTok
  | mi (m : MinmerInfo) : BinTok
  | ip (p : IntervalPoint) : BinTok
deriving DecidableEq, Repr

/-- Sketch::writeParameters. -/
def writeParameters (p : SketchParams) : List BinTok :=
  [BinTok.w64 p.segLength, BinTok.w64 p.sketchSize, BinTok.w64 p.kmerSize]

/-- Sketch::writeSketchBinary: vector size then the raw MinmerInfo records. -/
def writeSketchBinary (mis : List MinmerInfo) : List BinTok :=
  BinTok.w64 mis.length :: mis.map BinTok.mi

/-- One entry of the position list on disk: hash, point count, raw points. -/
def writePosEntry (e : Hash × PosList) : List BinTok :=
  BinTok.w64 e.1 :: BinTok.w64 e.2.length :: e.2.map BinTok.ip

/-- Sketch::writePosListBinary: number of keys, then each entry. -/
def writePosListBinary (m : PosMap) : List BinTok :=
  BinTok.w64 m.length :: (m.map writePosEntry).flatten

/-- Sketch::writeFreqKmersBinary: count then the hashes. -/
def writeFreqKmersBinary (fs : List Hash) : List BinTok :=
  BinTok.w64 fs.length :: fs.map BinTok.w64

/-- Sketch::writeIndex: parameters, sketch, position list, frequent seeds. -/
def writeIndex (p : SketchParams) (st : SketchState) : List BinTok :=
  writeParameters p ++ writeSketchBinary st.minmerIndex ++
    writePosListBinary st.minmerPosLookupIndex ++
    writeFreqKmersBinary st.frequentSeeds

/-- The structured content of the fatal diagnostic printed on a parameter
mismatch: exit code and, for each of the three parameter fields, its name,
the value stored in the index and the value from the CLI. -/
structure FatalDiag where
  code : Nat
  fields : List (String × Nat × Nat)
deriving DecidableEq, Repr

/-- Failure modes of reading an index stream. -/
inductive ReadFail where
  | mismatch (d : FatalDiag) : ReadFail
  | corrupt : ReadFail
deriving DecidableEq, Repr

/-- The diagnostic emitted by Sketch::readParameters on mismatch: exit code 1
and both parameter triples, each field named. -/
def paramDiag (idx cli : SketchParams) : FatalDiag :=
  { code := 1,
    fields := [("segLength", idx.segLength, cli.segLength),
               ("sketchSize", idx.sketchSize, cli.sketchSize),
               ("kmerSize", idx.kmerSize, cli.kmerSize)] }

/-- Sketch::readParameters: read the three stored parameters and exit fatally
when any disagrees with the caller's current parameters. -/
def readParameters (cur : SketchParams) (s : List BinTok) :
    Except ReadFail (List BinTok) :=
  match s with
  | BinTok.w64 a :: BinTok.w64 b :: BinTok.w64 c :: rest =>
    if cur.segLength ≠ a ∨ cur.sketchSize ≠ b ∨ cur.kmerSize ≠ c then
      Except.error (ReadFail.mismatch (paramDiag { segLength := a, sketchSize := b, kmerSize := c } cur))
    else
      Except.ok rest
  | _ => Except.error ReadFail.corrupt

/-- Read a run of n raw MinmerInfo records. -/
def readMIs : Nat → List BinTok → Except ReadFail (List MinmerInfo × List BinTok)
  | 0, s => Except.ok ([], s)
  | n + 1, BinTok.mi m :: rest => do
    let (ms, s1) ← readMIs n rest
    Except.ok (m :: ms, s1)
  | _ + 1, _ => Except.error ReadFail.corrupt

/-- Sketch::readSketchBinary. -/
def readSketchBinary (s : List BinTok) :
    Except ReadFail (List MinmerInfo × List BinTok) :=
  match s with
  | BinTok.w64 n :: rest => readMIs n rest
  | _ => Except.error ReadFail.corrupt

/-- Read a run of n raw IntervalPoint records. -/
def readIPs : Nat → List BinTok → Except ReadFail (PosList × List BinTok)
  | 0, s => Except.ok ([], s)
  | n + 1, BinTok.ip p :: rest => do
    let (ps, s1) ← readIPs n rest
    Except.ok (p :: ps, s1)
  | _ + 1, _ => Except.error ReadFail.corrupt

/-- Read n position-list entries (hash, point count, points). -/
def readPosEntries : Nat → List BinTok → Except ReadFail (PosMap × List BinTok)
  | 0, s => Except.ok ([], s)
  | n + 1, BinTok.w64 key :: BinTok.w64 np :: rest => do
    let (ps, s1) ← readIPs np rest
    let (es, s2) ← readPosEntries n s1
    Except.ok ((key, ps) :: es, s2)
  | _ + 1, _ => Except.error ReadFail.corrupt

/-- Sketch::readPosListBinary. -/
def readPosListBinary (s : List BinTok) :
    Except ReadFail (PosMap × List BinTok) :=
  match s with
  | BinTok.w64 n :: rest => readPosEntries n rest
  | _ => Except.error ReadFail.corrupt

/-- Read a run of n stored hashes. -/
def readHashes : Nat → List BinTok → Except ReadFail (List Hash × List BinTok)
  | 0, s => Except.ok ([], s)
  | n + 1, BinTok.w64 k :: rest => do
    let (ks, s1) ← readHashes n rest
    Except.ok (k :: ks, s1)
  | _ + 1, _ => Except.error ReadFail.corrupt

/-- Sketch::readFreqKmersBinary. -/
def readFreqKmersBinary (s : List BinTok) :
    Except ReadFail (List Hash × List BinTok) :=
  match s with
  | BinTok.w64 n :: rest => readHashes n rest
  | _ => Except.error ReadFail.corrupt

/-- Sketch::readIndex: parameters, sketch, position list, frequent seeds. -/
def readIndex (cur : SketchParams) (s : List BinTok) :
    Except ReadFail (List MinmerInfo × PosMap × List Hash) :=
  match readParameters cur s with
  | Except.error e => Except.error e
  | Except.ok s1 =>
    match readSketchBinary s1 with
    | Except.error e => Except.error e
    | Except.ok (mis, s2) =>
      match readPosListBinary s2 with
      | Except.error e => Except.error e
      | Except.ok (pm, s3) =>
        match readFreqKmersBinary s3 with
        | Except.error e => Except.error e
        | Except.ok (fs, _) => Except.ok (mis, pm, fs)

theorem readMIs_write (l : List MinmerInfo) :
    ∀ rest, readMIs l.length (l.map BinTok.mi ++ rest) = Except.ok (l, rest) := by
  induction l with
  | nil => intro rest; rfl
  | cons m ms ih =>
    intro rest
    simp only [List.length_cons, List.map_cons, List.cons_append, readMIs, List.append_eq]
    rw [ih rest]
    rfl

theorem readIPs_write (l : PosList) :
    ∀ rest, readIPs l.length (l.map BinTok.ip ++ rest) = Except.ok (l, rest) := by
  induction l with
  | nil => intro rest; rfl
  | cons p ps ih =>
    intro rest
    simp only [List.length_cons, List.map_cons, List.cons_append, readIPs, List.append_eq]
    rw [ih rest]
    rfl

theorem readHashes_write (l : List Hash) :
    ∀ rest, readHashes l.length (l.map BinTok.w64 ++ rest) = Except.ok (l, rest) := by
  induction l with
  | nil => intro rest; rfl
  | cons k ks ih =>
    intro rest
    simp only [List.length_cons, List.map_cons, List.cons_append, readHashes, List.append_eq]
    rw [ih rest]
    rfl

theorem readPosEntries_write (m : PosMap) :
    ∀ rest, readPosEntries m.length ((m.map writePosEntry).flatten ++ rest) =
      Except.ok (m, rest) := by
  induction m with
  | nil => intro rest; rfl
  | cons e es ih =>
    intro rest
    obtain ⟨k, l⟩ := e
    simp only [List.length_cons, List.map_cons, List.flatten_cons, writePosEntry,
      List.cons_append, readPosEntries, List.append_eq]
    rw [List.append_assoc, readIPs_write l ((es.map writePosEntry).flatten ++ rest)]
    show (do
      let d ← readPosEntries es.length ((es.map writePosEntry).flatten ++ rest)
      Except.ok ((k, l) :: d.1, d.2)) = Except.ok ((k, l) :: es, rest)
    rw [ih rest]
    rfl

/-- Claim C6 (confirmed): writing a built index and reading it back under the
same parameters returns exactly the persisted fields (minmers, positions,
frequent seeds), and reading under mismatched parameters fails
deterministically with the parameter-mismatch diagnostic. -/
theorem c6_index_roundtrip (st : SketchState) (p p2 : SketchParams)
    (hne : p2.segLength ≠ p.segLength ∨ p2.sketchSize ≠ p.sketchSize ∨
      p2.kmerSize ≠ p.kmerSize) :
    readIndex p (writeIndex p st) =
      Except.ok (st.minmerIndex, st.minmerPosLookupIndex, st.frequentSeeds) ∧
    readIndex p2 (writeIndex p st) =
      Except.error (ReadFail.mismatch (paramDiag p p2)) := by
  have hstream : writeIndex p st =
      BinTok.w64 p.segLength :: BinTok.w64 p.sketchSize :: BinTok.w64 p.kmerSize ::
        (BinTok.w64 st.minmerIndex.length ::
          (st.minmerIndex.map BinTok.mi ++
            (BinTok.w64 st.minmerPosLookupIndex.length ::
              ((st.minmerPosLookupIndex.map writePosEntry).flatten ++
                (BinTok.w64 st.frequentSeeds.length ::
                  (st.frequentSeeds.map BinTok.w64 ++ [])))))) := by
    simp [writeIndex, writeParameters, writeSketchBinary, writePosListBinary,
      writeFreqKmersBinary]
  constructor
  · rw [hstream]
    simp only [readIndex, readParameters]
    rw [if_neg (by simp)]
    simp only [readSketchBinary]
    rw [readMIs_write]
    simp only [readPosListBinary]
    rw [readPosEntries_write]
    simp only [readFreqKmersBinary]
    rw [readHashes_write]
  · rw [hstream]
    simp only [readIndex, readParameters]
    rw [if_pos hne]

/-- The concrete sketch state built from c1Contig, used as a round-trip
witness index. -/
def c6State : SketchState := accumulate [c1Contig]

/-- Witness for c6_index_roundtrip: scenario S3's parameter triples on the
index built from c1Contig. -/
theorem c6_index_roundtrip_witness :
    (readIndex { segLength := 500, sketchSize := 7, kmerSize := 19 }
        (writeIndex { segLength := 500, sketchSize := 7, kmerSize := 19 } c6State) =
      Except.ok (c6State.minmerIndex, c6State.minmerPosLookupIndex,
        c6State.frequentSeeds)) ∧
    (readIndex { segLength := 500, sketchSize := 7, kmerSize := 17 }
        (writeIndex { segLength := 500, sketchSize := 7, kmerSize := 19 } c6State) =
      Except.error (ReadFail.mismatch
        (paramDiag { segLength := 500, sketchSize := 7, kmerSize := 19 }
          { segLength := 500, sketchSize := 7, kmerSize := 17 }))) :=
  c6_index_roundtrip c6State
    { segLength := 500, sketchSize := 7, kmerSize := 19 }
    { segLength := 500, sketchSize := 7, kmerSize := 17 }
    (Or.inr (Or.inr (by decide)))

/-- Claim C7 (confirmed): readParameters returns normally exactly when all
three stored parameters equal the current ones; on any disagreement it fails
fatally with exit code 1 and a diagnostic that names every parameter field
with both the stored and the current value — in particular the field that
disagrees. -/
theorem c7_read_parameters (cur : SketchParams) (a b c : Nat) (rest : List BinTok) :
    ((cur.segLength = a ∧ cur.sketchSize = b ∧ cur.kmerSize = c) →
      readParameters cur (BinTok.w64 a :: BinTok.w64 b :: BinTok.w64 c :: rest) =
        Except.ok rest) ∧
    ((cur.segLength ≠ a ∨ cur.sketchSize ≠ b ∨ cur.kmerSize ≠ c) →
      readParameters cur (BinTok.w64 a :: BinTok.w64 b :: BinTok.w64 c :: rest) =
        Except.error (ReadFail.mismatch
          (paramDiag { segLength := a, sketchSize := b, kmerSize := c } cur)) ∧
      (paramDiag { segLength := a, sketchSize := b, kmerSize := c } cur).code = 1 ∧
      (cur.segLength ≠ a → ("segLength", a, cur.segLength) ∈
        (paramDiag { segLength := a, sketchSize := b, kmerSize := c } cur).fields) ∧
      (cur.sketchSize ≠ b → ("sketchSize", b, cur.sketchSize) ∈
        (paramDiag { segLength := a, sketchSize := b, kmerSize := c } cur).fields) ∧
      (cur.kmerSize ≠ c → ("kmerSize", c, cur.kmerSize) ∈
        (paramDiag { segLength := a, sketchSize := b, kmerSize := c } cur).fields)) := by
  constructor
  · intro heq
    simp only [readParameters]
    rw [if_neg (by simp [heq.1, heq.2.1, heq.2.2])]
  · intro hne
    refine ⟨?_, rfl, ?_, ?_, ?_⟩
    · simp only [readParameters]
      rw [if_pos hne]
    · intro _
      simp [paramDiag]
    · intro _
      simp [paramDiag]
    · intro _
      simp [paramDiag]

/-- Witness for c7_read_parameters: scenario S3 — an index stored with
(seg=500, s=7, k=19) loaded with current (seg=500, s=7, k=17). -/
theorem c7_read_parameters_witness :
    ({ segLength := 500, sketchSize := 7, kmerSize := 17 : SketchParams }.segLength ≠ 500 ∨
     { segLength := 500, sketchSize := 7, kmerSize := 17 : SketchParams }.sketchSize ≠ 7 ∨
     { segLength := 500, sketchSize := 7, kmerSize := 17 : SketchParams }.kmerSize ≠ 19) ∧
    (readParameters { segLength := 500, sketchSize := 7, kmerSize := 17 }
        [BinTok.w64 500, BinTok.w64 7, BinTok.w64 19] =
      Except.error (ReadFail.mismatch
        (paramDiag { segLength := 500, sketchSize := 7, kmerSize := 19 }
          { segLength := 500, sketchSize := 7, kmerSize := 17 })) ∧
     (paramDiag { segLength := 500, sketchSize := 7, kmerSize := 19 }
        { segLength := 500, sketchSize := 7, kmerSize := 17 }).code = 1 ∧
     ({ segLength := 500, sketchSize := 7, kmerSize := 17 : SketchParams }.segLength ≠ 500 →
       ("segLength", 500, 500) ∈
         (paramDiag { segLength := 500, sketchSize := 7, kmerSize := 19 }
           { segLength := 500, sketchSize := 7, kmerSize := 17 }).fields) ∧
     ({ segLength := 500, sketchSize := 7, kmerSize := 17 : SketchParams }.sketchSize ≠ 7 →
       ("sketchSize", 7, 7) ∈
         (paramDiag { segLength := 500, sketchSize := 7, kmerSize := 19 }
           { segLength := 500, sketchSize := 7, kmerSize := 17 }).fields) ∧
     ({ segLength := 500, sketchSize := 7, kmerSize := 17 : SketchParams }.kmerSize ≠ 19 →
       ("kmerSize", 19, 17) ∈
         (paramDiag { segLength := 500, sketchSize := 7, kmerSize := 19 }
           { segLength := 500, sketchSize := 7, kmerSize := 17 }).fields)) :=
  ⟨Or.inr (Or.inr (by decide)),
   (c7_read_parameters { segLength := 500, sketchSize := 7, kmerSize := 17 }
     500 7 19 []).2 (Or.inr (Or.inr (by decide)))⟩

/-- Process exit as observed by the embedding. -/
inductive SketchExit where
  | exited (code : Nat) : SketchExit
deriving DecidableEq, Repr

/-- Sketch::build: when compute_seeds is set, run the accumulation over the
per-contig thread outputs; in either case exit(1) when minmerIndex is empty
afterwards. -/
def build (computeSeeds : Bool) (contigs : List (List MinmerInfo))
    (st : SketchState) : Except SketchExit SketchState :=
  let st2 := if computeSeeds then contigs.foldl buildHandleThreadOutput st else st
  if st2.minmerIndex.isEmpty then Except.error (SketchExit.exited 1) else Except.ok st2

/-- Sketch::initialize.  The branch condition follows the source: build and
prune when the index filename is empty, the file does not exist, or
overwrite_index is set; otherwise build(false) and then readIndex from the
file contents.  create_index_only exits with code 0 after writing. -/
def initializeSketch (indexFilenameEmpty fileExists overwrite createOnly : Bool)
    (p : SketchParams) (pct : Nat) (contigs : List (List MinmerInfo))
    (fileContents : List BinTok) (st0 : SketchState) :
    Except SketchExit SketchState :=
  if indexFilenameEmpty || !fileExists || overwrite then
    match build true contigs st0 with
    | Except.error e => Except.error e
    | Except.ok st1 =>
      let st2 := afterFreqPipeline st1 pct
      let st3 := { st2 with hashFreq := [] }
      if createOnly then Except.error (SketchExit.exited 0) else Except.ok st3
  else
    match build false contigs st0 with
    | Except.error e => Except.error e
    | Except.ok st1 =>
      match readIndex p fileContents with
      | Except.error _ => Except.error (SketchExit.exited 1)
      | Except.ok (mis, pm, fs) =>
        Except.ok { st1 with minmerIndex := mis, minmerPosLookupIndex := pm,
                             frequentSeeds := fs }

/-- Claim C3 (confirmed): in the load-from-existing-index branch (filename
non-empty, file exists, no overwrite), build(false) runs on the still-empty
in-memory index, the empty-sketch check fires, and the whole initialization
exits with code 1 no matter what the index file contains — readIndex never
completes a load. -/
theorem c3_load_branch_exits (createOnly : Bool) (p : SketchParams) (pct : Nat)
    (contigs : List (List MinmerInfo)) (fileContents : List BinTok)
    (st0 : SketchState) (hempty : st0.minmerIndex = []) :
    initializeSketch false true false createOnly p pct contigs fileContents st0 =
      Except.error (SketchExit.exited 1) := by
  simp [initializeSketch, build, hempty]

/-- Witness for c3_load_branch_exits: a freshly constructed sketch, a
non-trivial contig list and arbitrary file contents. -/
theorem c3_load_branch_exits_witness :
    initialSketch.minmerIndex = [] ∧
    initializeSketch false true false false
        { segLength := 500, sketchSize := 7, kmerSize := 19 } 80 [c1Contig]
        [BinTok.w64 0] initialSketch = Except.error (SketchExit.exited 1) :=
  ⟨rfl, c3_load_branch_exits false
    { segLength := 500, sketchSize := 7, kmerSize := 19 } 80 [c1Contig]
    [BinTok.w64 0] initialSketch rfl⟩

/-- Modelled from the spec: the indexed-FASTA substring fetch provided by the
external SequenceStore collaborator (htslib faidx, outside this repository)
returns an owned buffer of exactly end − start bytes for the half-open range
[start, end). -/
def fetchSeq (s : List Char) (start endEx : Nat) : List Char :=
  (s.drop start).take (endEx - start)

/-- Coordinates of one mapping record as used by Aligner::doAlignment. -/
structure MappingCoords where
  qStartPos : Nat
  qEndPos : Nat
  rStartPos : Nat
  rEndPos : Nat
deriving DecidableEq, Repr

/-- The query and reference slices prepared by one doAlignment call. -/
structure FetchPlan where
  headPad : Nat
  tailPad : Nat
  refBeg : Nat
  refEndEx : Nat
  qBeg : Nat
  qEndEx : Nat
  refSlice : List Char
  querySlice : List Char
deriving DecidableEq, Repr

/-- The fetch portion of Aligner::doAlignment: head and tail padding are the
clamped flanks (ternaries from the source), the reference is fetched over the
padded range and the query over its exact range. -/
def doAlignmentFetch (maxLenMinor : Nat) (refSeq querySeq : List Char)
    (r : MappingCoords) : FetchPlan :=
  let ref_size := refSeq.length
  let head_padding := if r.rStartPos ≥ maxLenMinor then maxLenMinor else r.rStartPos
  let tail_padding := if ref_size - r.rEndPos ≥ maxLenMinor then maxLenMinor
    else ref_size - r.rEndPos
  { headPad := head_padding, tailPad := tail_padding,
    refBeg := r.rStartPos - head_padding, refEndEx := r.rEndPos + tail_padding,
    qBeg := r.qStartPos, qEndEx := r.qEndPos,
    refSlice := fetchSeq refSeq (r.rStartPos - head_padding) (r.rEndPos + tail_padding),
    querySlice := fetchSeq querySeq r.qStartPos r.qEndPos }

/-- Claim C5 (confirmed): head_pad = min(rStartPos, wflign_max_len_minor),
tail_pad = min(ref_size − rEndPos, wflign_max_len_minor), the reference slice
is fetched over [rStartPos − head_pad, rEndPos + tail_pad) and has length
(rEndPos − rStartPos) + head_pad + tail_pad, and the query slice is fetched
over [qStartPos, qEndPos) with no padding. -/
theorem c5_padding_policy (maxLenMinor : Nat) (refSeq querySeq : List Char)
    (r : MappingCoords) (h1 : r.rStartPos ≤ r.rEndPos)
    (h2 : r.rEndPos ≤ refSeq.length) :
    (doAlignmentFetch maxLenMinor refSeq querySeq r).headPad =
      min r.rStartPos maxLenMinor ∧
    (doAlignmentFetch maxLenMinor refSeq querySeq r).tailPad =
      min (refSeq.length - r.rEndPos) maxLenMinor ∧
    (doAlignmentFetch maxLenMinor refSeq querySeq r).refBeg =
      r.rStartPos - (doAlignmentFetch maxLenMinor refSeq querySeq r).headPad ∧
    (doAlignmentFetch maxLenMinor refSeq querySeq r).refEndEx =
      r.rEndPos + (doAlignmentFetch maxLenMinor refSeq querySeq r).tailPad ∧
    (doAlignmentFetch maxLenMinor refSeq querySeq r).refSlice.length =
      (r.rEndPos - r.rStartPos) +
        (doAlignmentFetch maxLenMinor refSeq querySeq r).headPad +
        (doAlignmentFetch maxLenMinor refSeq querySeq r).tailPad ∧
    (doAlignmentFetch maxLenMinor refSeq querySeq r).qBeg = r.qStartPos ∧
    (doAlignmentFetch maxLenMinor refSeq querySeq r).qEndEx = r.qEndPos ∧
    (doAlignmentFetch maxLenMinor refSeq querySeq r).querySlice =
      fetchSeq querySeq r.qStartPos r.qEndPos := by
  have hhead : (doAlignmentFetch maxLenMinor refSeq querySeq r).headPad =
      min r.rStartPos maxLenMinor := by
    simp only [doAlignmentFetch]
    split <;> omega
  have htail : (doAlignmentFetch maxLenMinor refSeq querySeq r).tailPad =
      min (refSeq.length - r.rEndPos) maxLenMinor := by
    simp only [doAlignmentFetch]
    split <;> omega
  have hlen : (doAlignmentFetch maxLenMinor refSeq querySeq r).refSlice.length =
      (r.rEndPos - r.rStartPos) +
        (doAlignmentFetch maxLenMinor refSeq querySeq r).headPad +
        (doAlignmentFetch maxLenMinor refSeq querySeq r).tailPad := by
    simp only [doAlignmentFetch, fetchSeq]
    rw [List.length_take, List.length_drop]
    split <;> split <;> omega
  exact ⟨hhead, htail, rfl, rfl, hlen, rfl, rfl, rfl⟩

/-- Witness for c5_padding_policy: a 40-base reference, mapping [5, 15) on
the reference and [0, 10) on the query, with wflign_max_len_minor = 8
(so head_pad = 5 and tail_pad = 8). -/
theorem c5_padding_policy_witness :
    (5 : Nat) ≤ 15 ∧ (15 : Nat) ≤ (List.replicate 40 'A').length ∧
    ((doAlignmentFetch 8 (List.replicate 40 'A') (List.replicate 30 'C')
        { qStartPos := 0, qEndPos := 10, rStartPos := 5, rEndPos := 15 }).headPad =
      min 5 8 ∧
     (doAlignmentFetch 8 (List.replicate 40 'A') (List.replicate 30 'C')
        { qStartPos := 0, qEndPos := 10, rStartPos := 5, rEndPos := 15 }).tailPad =
      min ((List.replicate 40 'A').length - 15) 8 ∧
     (doAlignmentFetch 8 (List.replicate 40 'A') (List.replicate 30 'C')
        { qStartPos := 0, qEndPos := 10, rStartPos := 5, rEndPos := 15 }).refBeg =
      5 - (doAlignmentFetch 8 (List.replicate 40 'A') (List.replicate 30 'C')
        { qStartPos := 0, qEndPos := 10, rStartPos := 5, rEndPos := 15 }).headPad ∧
     (doAlignmentFetch 8 (List.replicate 40 'A') (List.replicate 30 'C')
        { qStartPos := 0, qEndPos := 10, rStartPos := 5, rEndPos := 15 }).refEndEx =
      15 + (doAlignmentFetch 8 (List.replicate 40 'A') (List.replicate 30 'C')
        { qStartPos := 0, qEndPos := 10, rStartPos := 5, rEndPos := 15 }).tailPad ∧
     (doAlignmentFetch 8 (List.replicate 40 'A') (List.replicate 30 'C')
        { qStartPos := 0, qEndPos := 10, rStartPos := 5, rEndPos := 15 }).refSlice.length =
      (15 - 5) + (doAlignmentFetch 8 (List.replicate 40 'A') (List.replicate 30 'C')
        { qStartPos := 0, qEndPos := 10, rStartPos := 5, rEndPos := 15 }).headPad +
        (doAlignmentFetch 8 (List.replicate 40 'A') (List.replicate 30 'C')
          { qStartPos := 0, qEndPos := 10, rStartPos := 5, rEndPos := 15 }).tailPad ∧
     (doAlignmentFetch 8 (List.replicate 40 'A') (List.replicate 30 'C')
        { qStartPos := 0, qEndPos := 10, rStartPos := 5, rEndPos := 15 }).qBeg = 0 ∧
     (doAlignmentFetch 8 (List.replicate 40 'A') (List.replicate 30 'C')
        { qStartPos := 0, qEndPos := 10, rStartPos := 5, rEndPos := 15 }).qEndEx = 10 ∧
     (doAlignmentFetch 8 (List.replicate 40 'A') (List.replicate 30 'C')
        { qStartPos := 0, qEndPos := 10, rStartPos := 5, rEndPos := 15 }).querySlice =
      fetchSeq (List.replicate 30 'C') 0 10) :=
  ⟨by omega, by rw [List.length_replicate]; omega,
   c5_padding_policy 8 (List.replicate 40 'A') (List.replicate 30 'C')
     { qStartPos := 0, qEndPos := 10, rStartPos := 5, rEndPos := 15 }
     (by show (5 : Nat) ≤ 15; omega)
     (by show (15 : Nat) ≤ (List.replicate 40 'A').length
         rw [List.length_replicate]; omega)⟩

/-- Whitespace characters recognised by stream extraction. -/
def isWs (ch : Char) : Bool := ch = ' ' ∨ ch = Char.ofNat 9

/-- Tokenizer matching the stringstream extraction loop of parseMashmapRow:
maximal runs of non-whitespace characters, in order. -/
def wsTokensAux : List Char → List Char → List (List Char)
  | [], acc => if acc.isEmpty then [] else [acc.reverse]
  | ch :: rest, acc =>
    if isWs ch then
      if acc.isEmpty then wsTokensAux rest [] else acc.reverse :: wsTokensAux rest []
    else wsTokensAux rest (ch :: acc)

/-- The whitespace-separated tokens of a line. -/
def wsTokens (s : List Char) : List (List Char) := wsTokensAux s []

/-- Modelled from the spec: skch::CommonFunc::split (commonFunc.hpp, not in
src/) splits a string on a delimiter character into its components. -/
def splitAux (d : Char) : List Char → List Char → List (List Char)
  | [], acc => [acc.reverse]
  | ch :: rest, acc =>
    if ch = d then acc.reverse :: splitAux d rest []
    else splitAux d rest (ch :: acc)

/-- Split on a delimiter. -/
def splitOnChar (d : Char) (s : List Char) : List (List Char) := splitAux d s []

/-- Leading-digit-run parser backing std::stoi: none when the string has no
leading digits (stoi throws), otherwise the value of the maximal run. -/
def leadNatAux : List Char → Nat → Bool → Option Nat
  | [], acc, seen => if seen then some acc else none
  | ch :: rest, acc, seen =>
    if ch.isDigit then leadNatAux rest (acc * 10 + (ch.toNat - 48)) true
    else if seen then some acc else none

/-- std::stoi on a token: optional minus sign then leading digits. -/
def stoi (s : List Char) : Option Int :=
  match s with
  | '-' :: rest => (leadNatAux rest 0 false).map (fun n => -(n : Int))
  | _ => (leadNatAux s 0 false).map (fun n => (n : Int))

/-- Modelled from the spec: wfmash::is_a_number (common/utils.hpp, not in
src/) decides whether a token is a decimal number; here an optional minus
sign, digits and at most one decimal point with at least one digit. -/
def isNumberCore : List Char → Bool → Bool → Bool
  | [], seenDigit, _ => seenDigit
  | ch :: rest, seenDigit, seenDot =>
    if ch.isDigit then isNumberCore rest true seenDot
    else if ch = '.' then
      if seenDot then false else isNumberCore rest seenDigit true
    else false

/-- Numeric test for the identity tag. -/
def is_a_number (s : List Char) : Bool :=
  match s with
  | '-' :: rest => isNumberCore rest false false
  | _ => isNumberCore s false false

/-- Mapping strand. -/
inductive Strand where
  | FWD : Strand
  | REV : Strand
deriving DecidableEq, Repr

/-- The estimated identity carried by a parsed record: either the numeric
token of the id tag, or the fixed default percentage
(skch::fixed::percentage_identity) when the tag is non-numeric. -/
inductive IdentityVal where
  | parsed (s : List Char) : IdentityVal
  | defaultPct : IdentityVal
deriving DecidableEq, Repr

/-- align::MappingBoundaryRow, the fields filled by parseMashmapRow. -/
structure MappingBoundaryRow where
  qId : List Char
  qStartPos : Int
  qEndPos : Int
  strand : Strand
  refId : List Char
  rStartPos : Int
  rEndPos : Int
  mashmap_estimated_identity : IdentityVal
deriving DecidableEq, Repr

/-- Outcome of parsing one mashmap row.  fatalAssert is the failing
assert(tokens.size() >= 9); undefinedAccess is the out-of-bounds vector read
tokens[12] performed whenever fewer than 13 tokens exist; numberError is a
throwing std::stoi call. -/
inductive ParseResult where
  | fatalAssert : ParseResult
  | undefinedAccess : ParseResult
  | numberError : ParseResult
  | ok (r : MappingBoundaryRow) : ParseResult
deriving DecidableEq, Repr

/-- Aligner::parseMashmapRow: tokenize the line, assert at least 9 tokens,
read the identity tag from tokens[12] (an unchecked access), and fill the
record fields from tokens 0, 2, 3, 4, 5, 7 and 8. -/
def parseMashmapRow (line : List Char) : ParseResult :=
  let tokens := wsTokens line
  if tokens.length < 9 then ParseResult.fatalAssert
  else
    match tokens.get? 12 with
    | none => ParseResult.undefinedAccess
    | some t12 =>
      let mm_id :=
        match (splitOnChar ':' t12).getLast? with
        | some last =>
          if is_a_number last then IdentityVal.parsed last else IdentityVal.defaultPct
        | none => IdentityVal.defaultPct
      match stoi (tokens.getD 2 []), stoi (tokens.getD 3 []),
          stoi (tokens.getD 7 []), stoi (tokens.getD 8 []) with
      | some qs, some qe, some rs, some rEndv =>
        ParseResult.ok
          { qId := tokens.getD 0 [],
            qStartPos := qs, qEndPos := qe,
            strand := if tokens.getD 4 [] = ['+'] then Strand.FWD else Strand.REV,
            refId := tokens.getD 5 [],
            rStartPos := rs, rEndPos := rEndv,
            mashmap_estimated_identity := mm_id }
      | _, _, _, _ => ParseResult.numberError

/-- Claim C8, counterexample: a well-formed line with exactly 9
whitespace-separated tokens does not parse successfully — parseMashmapRow
unconditionally reads tokens[12], which is out of bounds, instead of
substituting the default identity. -/
theorem c8_counterexample :
    (wsTokens ("q0 10000 0 100 + r0 2000 50 150".toList)).length = 9 ∧
    parseMashmapRow ("q0 10000 0 100 + r0 2000 50 150".toList) =
      ParseResult.undefinedAccess := by
  decide

/-- Claim C8, amended: the parse asserts fatally exactly for lines with fewer
than 9 tokens; for lines with 9 to 12 tokens the unconditional tokens[12]
access is out of bounds (undefined behavior, not a successful parse); for
lines with at least 13 tokens whose coordinate fields parse as integers the
record is filled with qId = token 0, qStart = token 2, qEnd = token 3, strand
'+' meaning FWD and anything else REV, refId = token 5, rStart = token 7,
rEnd = token 8, and the identity from token 12, substituting the fixed
default exactly when the tag's last colon-separated component is
non-numeric. -/
theorem c8_parse_amended (line : List Char) :
    ((wsTokens line).length < 9 ↔ parseMashmapRow line = ParseResult.fatalAssert) ∧
    (9 ≤ (wsTokens line).length → (wsTokens line).length ≤ 12 →
      parseMashmapRow line = ParseResult.undefinedAccess) ∧
    (∀ t12, (wsTokens line).get? 12 = some t12 →
      ∀ qs qe rs rEndv,
        stoi ((wsTokens line).getD 2 []) = some qs →
        stoi ((wsTokens line).getD 3 []) = some qe →
        stoi ((wsTokens line).getD 7 []) = some rs →
        stoi ((wsTokens line).getD 8 []) = some rEndv →
        ∃ r, parseMashmapRow line = ParseResult.ok r ∧
          r.qId = (wsTokens line).getD 0 [] ∧
          r.qStartPos = qs ∧ r.qEndPos = qe ∧
          ((wsTokens line).getD 4 [] = ['+'] → r.strand = Strand.FWD) ∧
          ((wsTokens line).getD 4 [] ≠ ['+'] → r.strand = Strand.REV) ∧
          r.refId = (wsTokens line).getD 5 [] ∧
          r.rStartPos = rs ∧ r.rEndPos = rEndv ∧
          (∀ last, (splitOnChar ':' t12).getLast? = some last →
            (is_a_number last = true →
              r.mashmap_estimated_identity = IdentityVal.parsed last) ∧
            (is_a_number last = false →
              r.mashmap_estimated_identity = IdentityVal.defaultPct))) := by
  refine ⟨⟨?_, ?_⟩, ?_, ?_⟩
  · intro h
    simp only [parseMashmapRow]
    rw [if_pos h]
  · intro heq
    by_contra hge
    push_neg at hge
    revert heq
    simp only [parseMashmapRow]
    rw [if_neg (by omega)]
    split
    · simp
    · split <;> simp
  · intro h9 h12
    have hnone : (wsTokens line).get? 12 = none := by
      rw [List.get?_eq_none]
      omega
    have hlt : ¬ (wsTokens line).length < 9 := by omega
    simp only [parseMashmapRow]
    rw [if_neg hlt, hnone]
  · intro t12 h12 qs qe rs rEndv h2 h3 h7 h8
    have h13 : 13 ≤ (wsTokens line).length := by
      by_contra hc
      push_neg at hc
      rw [List.get?_eq_none.mpr (by omega)] at h12
      cases h12
    simp only [parseMashmapRow]
    rw [if_neg (by omega), h12, h2, h3, h7, h8]
    refine ⟨_, rfl, rfl, rfl, rfl, ?_, ?_, rfl, rfl, rfl, ?_⟩
    · intro hplus
      simp only [hplus, if_pos]
    · intro hplus
      simp only [if_neg hplus]
    · intro last hlast
      rw [hlast]
      constructor
      · intro hnum
        simp only [if_pos hnum]
      · intro hnum
        simp only [hnum, Bool.false_eq_true, if_false]

/-- Witness for c8_parse_amended: scenario S4's full 13-token mapping line. -/
theorem c8_parse_amended_witness :
    ((wsTokens ("q0 10000 0 100 + r0 2000 50 150 60 100 80 id:f:95.0".toList)).get? 12 =
      some ("id:f:95.0".toList)) ∧
    (∃ r, parseMashmapRow ("q0 10000 0 100 + r0 2000 50 150 60 100 80 id:f:95.0".toList) =
        ParseResult.ok r ∧
      r.qId = (wsTokens ("q0 10000 0 100 + r0 2000 50 150 60 100 80 id:f:95.0".toList)).getD 0 [] ∧
      r.qStartPos = 0 ∧ r.qEndPos = 100 ∧
      ((wsTokens ("q0 10000 0 100 + r0 2000 50 150 60 100 80 id:f:95.0".toList)).getD 4 [] = ['+'] →
        r.strand = Strand.FWD) ∧
      ((wsTokens ("q0 10000 0 100 + r0 2000 50 150 60 100 80 id:f:95.0".toList)).getD 4 [] ≠ ['+'] →
        r.strand = Strand.REV) ∧
      r.refId = (wsTokens ("q0 10000 0 100 + r0 2000 50 150 60 100 80 id:f:95.0".toList)).getD 5 [] ∧
      r.rStartPos = 50 ∧ r.rEndPos = 150 ∧
      (∀ last, (splitOnChar ':' ("id:f:95.0".toList)).getLast? = some last →
        (is_a_number last = true →
          r.mashmap_estimated_identity = IdentityVal.parsed last) ∧
        (is_a_number last = false →
          r.mashmap_estimated_identity = IdentityVal.defaultPct))) :=
  ⟨by decide,
   (c8_parse_amended ("q0 10000 0 100 + r0 2000 50 150 60 100 80 id:f:95.0".toList)).2.2
     ("id:f:95.0".toList) (by decide) 0 100 50 150
     (by decide) (by decide) (by decide) (by decide)⟩

/-- Program counter of one worker thread of computeAlignments, between its
atomic actions: about to try_pop seq_queue; pop failed and about to load
reader_done; holding a popped record, about to run the kernel and push the
result; out of the loop, about to clear its working flag; finished. -/
inductive WorkerPC where
  | idle : WorkerPC
  | checkDone : WorkerPC
  | compute (item : Nat) : WorkerPC
  | exited : WorkerPC
  | halted : WorkerPC
deriving DecidableEq, Repr

/-- Program counter of the PAF writer thread: about to try_pop paf_queue; pop
failed and about to read the working flags; holding a line, about to write
it; broken out of its loop. -/
inductive WriterPC where
  | top : WriterPC
  | checkFlags : WriterPC
  | write (item : Nat) : WriterPC
  | halted : WriterPC
deriving DecidableEq, Repr

/-- Shared state of the alignment pipeline: the reader's remaining input
lines, the reader_done atomic, the two lock-free queues (records identified
by their input index), the per-worker working flags, every thread's program
counter, and the lines written to the paf stream. -/
structure PipeState where
  readerRem : List Nat
  readerDone : Bool
  readerHalted : Bool
  seqQueue : List Nat
  pafQueue : List Nat
  working : List Bool
  workers : List WorkerPC
  writer : WriterPC
  written : List Nat
deriving DecidableEq, Repr

/-- Initial pipeline state: working flags pre-set to true before launch, all
threads at their loop heads. -/
def pipeInit (inputs : List Nat) (nWorkers : Nat) : PipeState :=
  { readerRem := inputs, readerDone := false, readerHalted := false,
    seqQueue := [], pafQueue := [],
    working := List.replicate nWorkers true,
    workers := List.replicate nWorkers WorkerPC.idle,
    writer := WriterPC.top, written := [] }

/-- One atomic step of the pipeline under sequentially consistent
interleaving.  ne is the kernel oracle: whether the wavefront kernel returns
a non-empty output string for an input record.  The steps mirror the source:
the reader pushes each parsed line then sets reader_done; a worker whose
try_pop fails reads reader_done and either retries or breaks and clears its
flag; a worker holding a record pushes its output iff non-empty; the writer
whose try_pop fails reads the flags and breaks only when all are false. -/
inductive PipeStep (ne : Nat → Bool) : PipeState → PipeState → Prop where
  | readerPush (s : PipeState) (x : Nat) (rem : List Nat)
      (hrem : s.readerRem = x :: rem) :
      PipeStep ne s { s with readerRem := rem, seqQueue := s.seqQueue ++ [x] }
  | readerFinish (s : PipeState) (hrem : s.readerRem = [])
      (hh : s.readerHalted = false) :
      PipeStep ne s { s with readerDone := true, readerHalted := true }
  | workerPopOk (s : PipeState) (i x : Nat) (rest : List Nat)
      (hpc : s.workers.get? i = some WorkerPC.idle) (hq : s.seqQueue = x :: rest) :
      PipeStep ne s { s with seqQueue := rest,
                             workers := s.workers.set i (WorkerPC.compute x) }
  | workerPopFail (s : PipeState) (i : Nat)
      (hpc : s.workers.get? i = some WorkerPC.idle) (hq : s.seqQueue = []) :
      PipeStep ne s { s with workers := s.workers.set i WorkerPC.checkDone }
  | workerDoneTrue (s : PipeState) (i : Nat)
      (hpc : s.workers.get? i = some WorkerPC.checkDone) (hd : s.readerDone = true) :
      PipeStep ne s { s with workers := s.workers.set i WorkerPC.exited }
  | workerDoneFalse (s : PipeState) (i : Nat)
      (hpc : s.workers.get? i = some WorkerPC.checkDone) (hd : s.readerDone = false) :
      PipeStep ne s { s with workers := s.workers.set i WorkerPC.idle }
  | workerCompute (s : PipeState) (i x : Nat)
      (hpc : s.workers.get? i = some (WorkerPC.compute x)) :
      PipeStep ne s { s with
        pafQueue := if ne x then s.pafQueue ++ [x] else s.pafQueue,
        workers := s.workers.set i WorkerPC.idle }
  | workerExit (s : PipeState) (i : Nat)
      (hpc : s.workers.get? i = some WorkerPC.exited) :
      PipeStep ne s { s with working := s.working.set i false,
                             workers := s.workers.set i WorkerPC.halted }
  | writerPopOk (s : PipeState) (x : Nat) (rest : List Nat)
      (hpc : s.writer = WriterPC.top) (hq : s.pafQueue = x :: rest) :
      PipeStep ne s { s with pafQueue := rest, writer := WriterPC.write x }
  | writerPopFail (s : PipeState)
      (hpc : s.writer = WriterPC.top) (hq : s.pafQueue = []) :
      PipeStep ne s { s with writer := WriterPC.checkFlags }
  | writerFlagsBusy (s : PipeState) (i : Nat)
      (hpc : s.writer = WriterPC.checkFlags) (hw : s.working.get? i = some true) :
      PipeStep ne s { s with writer := WriterPC.top }
  | writerFlagsIdleAll (s : PipeState)
      (hpc : s.writer = WriterPC.checkFlags) (hw : ∀ b ∈ s.working, b = false) :
      PipeStep ne s { s with writer := WriterPC.halted }
  | writerWrite (s : PipeState) (x : Nat)
      (hpc : s.writer = WriterPC.write x) :
      PipeStep ne s { s with written := s.written ++ [x], writer := WriterPC.top }

/-- Reachability of pipeline states. -/
def PipeReach (ne : Nat → Bool) : PipeState → PipeState → Prop :=
  Relation.ReflTransGen (PipeStep ne)

/-- A terminal state: every thread has finished. -/
def PipeTerminal (s : PipeState) : Prop :=
  s.readerHalted = true ∧ (∀ w ∈ s.workers, w = WorkerPC.halted) ∧
    s.writer = WriterPC.halted

/-- The dropped-line terminal state reached by the counterexample schedule:
the single record was aligned and its line pushed, but the writer had already
failed its pop and then saw the worker's cleared flag, so it halted with the
line still in paf_queue. -/
def c10FinalState : PipeState :=
  { readerRem := [], readerDone := true, readerHalted := true,
    seqQueue := [], pafQueue := [0], working := [false],
    workers := [WorkerPC.halted], writer := WriterPC.halted, written := [] }

/-- Claim C10, refutation: with one input line that parses and whose kernel
output is non-empty, and one worker, there is a legal sequentially consistent
schedule under which the pipeline terminates having written nothing: the
writer's failed try_pop races the worker's final push, the worker then drains
the queue, exits and clears its flag, and the writer re-checks the flags and
breaks with the line still queued.  Hence it is not true that every such line
is written exactly once. -/
theorem c10_pipeline_drop :
    PipeReach (fun _ => true) (pipeInit [0] 1) c10FinalState ∧
    PipeTerminal c10FinalState ∧
    c10FinalState.written = [] ∧
    ¬ (∀ s : PipeState, PipeReach (fun _ => true) (pipeInit [0] 1) s →
        PipeTerminal s → s.written.Perm ([0].filter (fun _ => true))) := by
  have hreach : PipeReach (fun _ => true) (pipeInit [0] 1) c10FinalState := by
    apply Relation.ReflTransGen.head
      (PipeStep.readerPush
        { readerRem := [0], readerDone := false, readerHalted := false,
          seqQueue := [], pafQueue := [], working := [true],
          workers := [WorkerPC.idle], writer := WriterPC.top, written := [] }
        0 [] rfl)
    apply Relation.ReflTransGen.head
      (PipeStep.workerPopOk
        { readerRem := [], readerDone := false, readerHalted := false,
          seqQueue := [0], pafQueue := [], working := [true],
          workers := [WorkerPC.idle], writer := WriterPC.top, written := [] }
        0 0 [] rfl rfl)
    apply Relation.ReflTransGen.head
      (PipeStep.writerPopFail
        { readerRem := [], readerDone := false, readerHalted := false,
          seqQueue := [], pafQueue := [], working := [true],
          workers := [WorkerPC.compute 0], writer := WriterPC.top, written := [] }
        rfl rfl)
    apply Relation.ReflTransGen.head
      (PipeStep.workerCompute
        { readerRem := [], readerDone := false, readerHalted := false,
          seqQueue := [], pafQueue := [], working := [true],
          workers := [WorkerPC.compute 0], writer := WriterPC.checkFlags,
          written := [] }
        0 0 rfl)
    apply Relation.ReflTransGen.head
      (PipeStep.readerFinish
        { readerRem := [], readerDone := false, readerHalted := false,
          seqQueue := [], pafQueue := [0], working := [true],
          workers := [WorkerPC.idle], writer := WriterPC.checkFlags, written := [] }
        rfl rfl)
    apply Relation.ReflTransGen.head
      (PipeStep.workerPopFail
        { readerRem := [], readerDone := true, readerHalted := true,
          seqQueue := [], pafQueue := [0], working := [true],
          workers := [WorkerPC.idle], writer := WriterPC.checkFlags, written := [] }
        0 rfl rfl)
    apply Relation.ReflTransGen.head
      (PipeStep.workerDoneTrue
        { readerRem := [], readerDone := true, readerHalted := true,
          seqQueue := [], pafQueue := [0], working := [true],
          workers := [WorkerPC.checkDone], writer := WriterPC.checkFlags,
          written := [] }
        0 rfl rfl)
    apply Relation.ReflTransGen.head
      (PipeStep.workerExit
        { readerRem := [], readerDone := true, readerHalted := true,
          seqQueue := [], pafQueue := [0], working := [true],
          workers := [WorkerPC.exited], writer := WriterPC.checkFlags,
          written := [] }
        0 rfl)
    apply Relation.ReflTransGen.head
      (PipeStep.writerFlagsIdleAll
        { readerRem := [], readerDone := true, readerHalted := true,
          seqQueue := [], pafQueue := [0], working := [false],
          workers := [WorkerPC.halted], writer := WriterPC.checkFlags,
          written := [] }
        rfl (by decide))
    exact Relation.ReflTransGen.refl
  refine ⟨hreach, ⟨rfl, by decide, rfl⟩, rfl, ?_⟩
  intro hall
  have hperm := hall c10FinalState hreach ⟨rfl, by decide, rfl⟩
  have := hperm.length_eq
  simp [c10FinalState] at this

end WfMash
